import Mathlib

/-!
Verification of the sixaxispairer controller pairing tool.

The definitions below are a shallow embedding of the C sources:
mac_utils.c (hex MAC codec), controller_info.c (catalog, record
collection and the preference sort), controller_connection.c
(connection strategy and the pairing feature-report protocol) and
main.c (command dispatch).  Machine integers are modelled as Nat
(unsigned char, unsigned short, size_t) and Int (the int return
values of the HID transport); buffers are lists; the HID transport
itself is an oracle parameter, since it is an external collaborator.
-/

namespace SixaxisPairer

/-- Embeds char_to_nibble from mac_utils.c: hex digit to 4-bit value,
255 for an invalid character. -/
def char_to_nibble (c : Char) : Nat :=
  if '0' ≤ c ∧ c ≤ '9' then c.toNat - '0'.toNat
  else if 'a' ≤ c ∧ c ≤ 'f' then c.toNat - 'a'.toNat + 10
  else if 'A' ≤ c ∧ c ≤ 'F' then c.toNat - 'A'.toNat + 10
  else 255

/-- Embeds the ctype isxdigit test used by mac_to_bytes. -/
def isxdigit (c : Char) : Bool :=
  ('0' ≤ c && c ≤ '9') || ('a' ≤ c && c ≤ 'f') || ('A' ≤ c && c ≤ 'F')

/-- One parsed byte, as computed by mac_to_bytes:
(char_to_nibble c1 shifted left 4) bitwise-or char_to_nibble c2. -/
def byteOfPair (c1 c2 : Char) : Nat :=
  Nat.lor (Nat.shiftLeft (char_to_nibble c1) 4) (char_to_nibble c2)

/-- Embeds the parsing loop of mac_to_bytes (mac_utils.c lines 44-63).
The C loop walks a pointer p while at least two characters remain and
the output buffer has room (cap), skipping colons, rejecting on a
non-hex digit, otherwise appending one byte per digit pair.  Returns
none on a hard reject, otherwise the accumulated bytes together with
the characters the loop left unconsumed. -/
def macLoop : List Char → Nat → List Nat → Option (List Nat × List Char)
  | c1 :: c2 :: rest, cap + 1, acc =>
    if c1 = ':' then macLoop (c2 :: rest) (cap + 1) acc
    else if isxdigit c1 && isxdigit c2 then
      macLoop rest cap (acc ++ [byteOfPair c1 c2])
    else none
  | cs, _, acc => some (acc, cs)

/-- Embeds mac_to_bytes (mac_utils.c lines 30-69).  The output buffer
(length outLen, zero-initialised by memset) is returned on success;
the function fails on empty input, zero-length output, a bad digit, or
input that the loop did not consume entirely. -/
def mac_to_bytes (s : List Char) (outLen : Nat) : Option (List Nat) :=
  if s.length = 0 ∨ outLen = 0 then none
  else
    match macLoop s outLen [] with
    | none => none
    | some (acc, leftover) =>
      if leftover = [] then some (acc ++ List.replicate (outLen - acc.length) 0)
      else none

/-- Lower-case hex digit character for a value below 16, as produced
by the %02x conversions in bytes_to_mac_string. -/
def hexChar (n : Nat) : Char :=
  if n < 10 then Char.ofNat ('0'.toNat + n) else Char.ofNat ('a'.toNat + (n - 10))

/-- The two lower-case hex characters of one byte (an unsigned char,
hence the mod 256 at the type boundary). -/
def byteToHex (b : Nat) : List Char :=
  [hexChar (b % 256 / 16), hexChar (b % 256 % 16)]

/-- Hex rendering of a byte list without separators, the shape of the
snprintf format string with six bare %02x conversions. -/
def hexConcat : List Nat → List Char
  | [] => []
  | b :: rest => byteToHex b ++ hexConcat rest

/-- Hex rendering with one colon between consecutive bytes, the shape
of the snprintf format string %02x:%02x:%02x:%02x:%02x:%02x. -/
def hexColon : List Nat → List Char
  | [] => []
  | [b] => byteToHex b
  | b :: rest => byteToHex b ++ ':' :: hexColon rest

/-- The characters bytes_to_mac_string writes for a 6-byte input. -/
def bytes_to_mac_chars (b : List Nat) (useColons : Bool) : List Char :=
  if useColons then hexColon b else hexConcat b

/-- Embeds bytes_to_mac_string (mac_utils.c lines 74-95).  The two C
pointers are modelled as null flags plus the pointee data; none models
returning 0 with the output buffer untouched. -/
def bytes_to_mac_string (inNull outNull : Bool) (b : List Nat) (outLen : Nat)
    (useColons : Bool) : Option (List Char) :=
  if inNull || outNull || outLen == 0 then none
  else if outLen < (if useColons then 18 else 13) then none
  else some (bytes_to_mac_chars b useColons)

/-! Controller catalog (controller_info.c / controller_info.h). -/

def VENDOR_SONY : Nat := 0x054c

def PRODUCT_SIXAXIS : Nat := 0x0268

def PRODUCT_MOVE : Nat := 0x042f

def PRODUCT_DS4 : Nat := 0x09cc

def DS4_HID_INTERFACE : Int := 3

def MAX_CONTROLLERS : Nat := 10

/-- The SUPPORTED_PRODUCTS table of controller_info.c. -/
def SUPPORTED_PRODUCTS : List Nat := [PRODUCT_SIXAXIS, PRODUCT_MOVE, PRODUCT_DS4]

/-- The lookup loop inside is_supported_controller. -/
def product_in_table : List Nat → Nat → Bool
  | [], _ => false
  | q :: rest, p => if p = q then true else product_in_table rest p

/-- Embeds is_supported_controller (controller_info.c lines 118-130). -/
def is_supported_controller (vendor_id product_id : Nat) : Bool :=
  if vendor_id ≠ VENDOR_SONY then false
  else product_in_table SUPPORTED_PRODUCTS product_id

/-- One enumerated hid_device_info record; id stands for the unique
device path and lets theorems track identity through reordering. -/
structure DevInfo where
  id : Nat
  vendor_id : Nat
  product_id : Nat
  interface_number : Int
deriving DecidableEq

/-- Embeds is_dualshock4 (controller_info.c lines 36-44); the argument
is the hid_get_device_info result, none when it is NULL. -/
def is_dualshock4 : Option DevInfo → Bool
  | none => false
  | some d => d.vendor_id = VENDOR_SONY && d.product_id = PRODUCT_DS4

/-- A controller_info_t record as built by create_controller_info. -/
structure CRec where
  id : Nat
  vendor_id : Nat
  product_id : Nat
  interface_number : Int
  is_preferred : Bool
deriving DecidableEq

instance : Inhabited CRec := ⟨⟨0, 0, 0, 0, false⟩⟩

/-- Embeds create_controller_info (controller_info.c lines 49-98): all
descriptor fields are copied and the record is preferred exactly when
it is a DualShock 4 on interface DS4_HID_INTERFACE. -/
def create_controller_info (d : DevInfo) : CRec :=
  { id := d.id
    vendor_id := d.vendor_id
    product_id := d.product_id
    interface_number := d.interface_number
    is_preferred := d.product_id = PRODUCT_DS4 && d.interface_number = DS4_HID_INTERFACE }

/-- Embeds the first pass of find_controllers (controller_info.c lines
144-161): walk the enumeration, keep supported Sony records, stop when
the output array is full (cap is the remaining capacity). -/
def collect_controllers : List DevInfo → Nat → List CRec
  | [], _ => []
  | _ :: _, 0 => []
  | d :: rest, cap + 1 =>
    if d.vendor_id = VENDOR_SONY ∧ is_supported_controller d.vendor_id d.product_id = true then
      create_controller_info d :: collect_controllers rest cap
    else collect_controllers rest (cap + 1)

/-- Element at an index, with the Inhabited default out of range. -/
def nth (l : List CRec) (n : Nat) : CRec := l.getD n default

/-- The pointer swap controllers[i] <-> controllers[j]. -/
def lswap (l : List CRec) (i j : Nat) : List CRec :=
  (l.set i (nth l j)).set j (nth l i)

/-- Embeds the inner j loop of the sort in find_controllers
(controller_info.c lines 165-172): for j from its start value up to
the end, swap positions i and j whenever record j is preferred and
record i is not. -/
def sortInner (i : Nat) (l : List CRec) (j : Nat) : List CRec :=
  if h : j < l.length then
    if (nth l j).is_preferred = true ∧ (nth l i).is_preferred = false then
      sortInner i (lswap l i j) (j + 1)
    else sortInner i l (j + 1)
  else l
  termination_by l.length - j
  decreasing_by
    all_goals simp [lswap, List.length_set]
    all_goals omega

/-- The inner sort loop never changes the number of records. -/
lemma sortInner_length (i : Nat) (l : List CRec) (j : Nat) :
    (sortInner i l j).length = l.length := by
  suffices h : ∀ n l j, l.length - j ≤ n → (sortInner i l j).length = l.length from
    h (l.length - j) l j le_rfl
  intro n
  induction n with
  | zero =>
    intro l j h
    unfold sortInner
    split
    · omega
    · rfl
  | succ n ih =>
    intro l j h
    unfold sortInner
    split
    · rename_i hj
      split
      · rename_i hc
        have hl : (lswap l i j).length = l.length := by simp [lswap]
        rw [ih (lswap l i j) (j + 1) (by rw [hl]; omega)]
        exact hl
      · exact ih l (j + 1) (by omega)
    · rfl

/-- Embeds the outer i loop of the sort in find_controllers
(controller_info.c lines 164-173). -/
def sortOuter (l : List CRec) (i : Nat) : List CRec :=
  if i + 1 < l.length then sortOuter (sortInner i l (i + 1)) (i + 1) else l
  termination_by l.length - i
  decreasing_by
    simp [sortInner_length]
    omega

/-- Embeds find_controllers (controller_info.c lines 135-179):
collect the supported records in enumeration order, then run the
preference sort over the whole array starting at index 0. -/
def find_controllers (devs : List DevInfo) (maxc : Nat) : List CRec :=
  sortOuter (collect_controllers devs maxc) 0

/-! Connection strategy (controller_connection.c lines 68-160).  The
HID transport is an external collaborator; each open call the strategy
can make is represented by its (arbitrary) result. -/

/-- Per-call results of the transport during one connection attempt:
hid_open_path on the record path, the first hid_open by vendor and
product, the second such call made in the non-DualShock4 branch, the
raw device node found by the popen lookup (none when the lookup or the
fgets fails), and hid_open_path on that raw node. -/
structure Transport where
  openPathR : Option Nat
  openVidPidR : Option Nat
  openVidPidR2 : Option Nat
  rawFindR : Option (List Char)
  rawOpenR : Option Nat

/-- The distinct connection routes, in the order they are attempted. -/
inductive Att where
  | path : Att
  | vidpid : Att
  | rawdev : Att
deriving DecidableEq

/-- Embeds connect_to_dualshock4_raw (controller_connection.c lines
121-160): if the popen lookup produced a node path, open it; otherwise
no open call is made and NULL is returned. -/
def connect_to_dualshock4_raw (t : Transport) : Option Nat × List Att :=
  match t.rawFindR with
  | none => (none, [])
  | some _ => (t.rawOpenR, [Att.rawdev])

/-- Embeds connect_to_controller (controller_connection.c lines
68-116): open by path, then by vendor and product, then either the raw
DualShock 4 route or one more vendor and product open.  Also returns
the list of attempted routes in order. -/
def connect_to_controller (t : Transport) (c : CRec) : Option Nat × List Att :=
  match t.openPathR with
  | some h => (some h, [Att.path])
  | none =>
    match t.openVidPidR with
    | some h => (some h, [Att.path, Att.vidpid])
    | none =>
      if c.product_id = PRODUCT_DS4 then
        match connect_to_dualshock4_raw t with
        | (r, tr) => (r, [Att.path, Att.vidpid] ++ tr)
      else (t.openVidPidR2, [Att.path, Att.vidpid, Att.vidpid])

/-! Pairing protocol (controller_connection.c lines 298-444) and the
surrounding main flow (main.c).  Transport calls are oracles indexed
by call number; observable behaviour is an event trace. -/

/-- Observable events of one program run: the hid_enumerate call, the
connection attempt, one hid_send_feature_report with its full 8-byte
buffer, one hid_get_feature_report with its report id, the invalid MAC
format diagnostic, and printing a MAC address. -/
inductive Ev where
  | enumerateDevs : Ev
  | connectDev : Ev
  | featureSend (buf : List Nat) : Ev
  | featureGet (reportId : Nat) : Ev
  | macError : Ev
  | showMac (mac : List Nat) : Ev
deriving DecidableEq

/-- Bytes 2 to 7 of a response buffer, the MAC slice both read paths
print. -/
def macOf (b : List Nat) : List Nat := (b.drop 2).take 6

/-- Embeds pair_device (controller_connection.c lines 298-370).  The
MAC text is validated first; on failure only the diagnostic is
emitted.  Otherwise the 8-byte report 0xF5 0x00 mac is sent, with the
DualShock 4 retries replacing only byte 0 by 0x12 and then 0x81 when
the previous send returned -1.  The oracle o gives the result of the
k-th hid_send_feature_report call; the Bool is true when some attempt
was accepted. -/
def pair_device (devInfo : Option DevInfo) (mac : List Char) (o : Nat → Int) :
    List Ev × Bool :=
  match (if mac.length = 12 ∨ mac.length = 17 then mac_to_bytes mac 6 else none) with
  | none => ([Ev.macError], false)
  | some m =>
    let buf := 0xF5 :: 0x00 :: m
    if is_dualshock4 devInfo then
      if o 0 = -1 then
        let buf2 := 0x12 :: 0x00 :: m
        if o 1 = -1 then
          let buf3 := 0x81 :: 0x00 :: m
          if o 2 = -1 then
            ([Ev.featureSend buf, Ev.featureSend buf2, Ev.featureSend buf3], false)
          else ([Ev.featureSend buf, Ev.featureSend buf2, Ev.featureSend buf3], true)
        else ([Ev.featureSend buf, Ev.featureSend buf2], true)
      else ([Ev.featureSend buf], true)
    else
      if o 0 = -1 then ([Ev.featureSend buf], false) else ([Ev.featureSend buf], true)

/-- Embeds show_pairing (controller_connection.c lines 375-444).  The
oracle g gives the result of the k-th hid_get_feature_report call as
the returned byte count and the buffer contents it left behind.  The
primary attempt uses report 0xF5; a DualShock 4 retries with 0x12 and
then 0x81 while fewer than 8 bytes come back.  On the first attempt
with at least 8 bytes the MAC printed is bytes 2 to 7 of that
response. -/
def show_pairing (devInfo : Option DevInfo) (g : Nat → Int × List Nat) :
    List Ev × Option (List Nat) :=
  if is_dualshock4 devInfo then
    if (g 0).1 < 8 then
      if (g 1).1 < 8 then
        if (g 2).1 < 8 then
          ([Ev.featureGet 0xF5, Ev.featureGet 0x12, Ev.featureGet 0x81], none)
        else
          ([Ev.featureGet 0xF5, Ev.featureGet 0x12, Ev.featureGet 0x81,
            Ev.showMac (macOf (g 2).2)], some (macOf (g 2).2))
      else
        ([Ev.featureGet 0xF5, Ev.featureGet 0x12, Ev.showMac (macOf (g 1).2)],
          some (macOf (g 1).2))
    else ([Ev.featureGet 0xF5, Ev.showMac (macOf (g 0).2)], some (macOf (g 0).2))
  else
    if (g 0).1 < 8 then ([Ev.featureGet 0xF5], none)
    else ([Ev.featureGet 0xF5, Ev.showMac (macOf (g 0).2)], some (macOf (g 0).2))

/-- Environment of one main.c run: whether hid_init succeeded, the
enumeration snapshot, the index chosen by select_controller, the
outcome of connect_to_controller, the hid_get_device_info data of the
open handle, and the two feature report oracles. -/
structure MainEnv where
  initOk : Bool
  devices : List DevInfo
  selectIndex : Int
  connectR : Option Nat
  handleInfo : Option DevInfo
  getOracle : Nat → Int × List Nat
  sendOracle : Nat → Int

/-- Embeds the no-argument path of main (main.c lines 503-640): init,
find controllers (exit 1 when none), select (exit 1 when negative),
connect (exit 1 on failure), then show_pairing and exit 0. -/
def main_no_args (e : MainEnv) : Nat × List Ev :=
  if e.initOk = false then (1, [])
  else if (find_controllers e.devices MAX_CONTROLLERS).length = 0 then
    (1, [Ev.enumerateDevs])
  else if e.selectIndex < 0 then (1, [Ev.enumerateDevs])
  else
    match e.connectR with
    | none => (1, [Ev.enumerateDevs, Ev.connectDev])
    | some _ =>
      (0, [Ev.enumerateDevs, Ev.connectDev] ++ (show_pairing e.handleInfo e.getOracle).1)

/-- Embeds the single MAC-argument path of main (main.c lines
503-640): the same discovery and connection steps, then pair_device;
main returns 0 once a controller was connected, whatever pair_device
reported. -/
def main_with_mac (mac : List Char) (e : MainEnv) : Nat × List Ev :=
  if e.initOk = false then (1, [])
  else if (find_controllers e.devices MAX_CONTROLLERS).length = 0 then
    (1, [Ev.enumerateDevs])
  else if e.selectIndex < 0 then (1, [Ev.enumerateDevs])
  else
    match e.connectR with
    | none => (1, [Ev.enumerateDevs, Ev.connectDev])
    | some _ =>
      (0, [Ev.enumerateDevs, Ev.connectDev] ++ (pair_device e.handleInfo mac e.sendOracle).1)

/-! Concrete instances used by witnesses and counterexamples. -/

/-- A DualShock 4 descriptor on its HID interface. -/
def devDs4If3 : DevInfo := ⟨3, 0x054c, 0x09cc, 3⟩

/-- A SixAxis descriptor. -/
def devSixaxis : DevInfo := ⟨1, 0x054c, 0x0268, 0⟩

/-- A transport where only the raw device route succeeds. -/
def rawOnlyTransport : Transport :=
  { openPathR := none
    openVidPidR := none
    openVidPidR2 := none
    rawFindR := some ['h', 'i', 'd']
    rawOpenR := some 7 }

/-- A DualShock 4 controller record on interface 3. -/
def ds4Rec : CRec := create_controller_info devDs4If3

/-- An environment whose discovery and connection steps all succeed,
holding a SixAxis controller. -/
def okEnv : MainEnv :=
  { initOk := true
    devices := [devSixaxis]
    selectIndex := 0
    connectR := some 1
    handleInfo := some devSixaxis
    getOracle := fun k => (8, [0xF5, 0, 1, 2, 3, 4, 5, 6, k])
    sendOracle := fun _ => 0 }

/-! Claim C7: the supported-controller predicate. -/

/-- C7: for all 16-bit vendor and product ids, is_supported_controller
returns true exactly when the vendor is 0x054c and the product is
0x0268, 0x042f or 0x09cc; in particular the three quoted instances. -/
theorem claim7_supported_iff (v p : Nat) (_hv : v < 65536) (_hp : p < 65536) :
    (is_supported_controller v p = true ↔
      v = 0x054c ∧ (p = 0x0268 ∨ p = 0x042f ∨ p = 0x09cc))
    ∧ is_supported_controller 0x054c 0x09cc = true
    ∧ is_supported_controller 0x054c 0x1234 = false
    ∧ is_supported_controller 0x1234 0x09cc = false := by
  refine ⟨?_, by decide, by decide, by decide⟩
  simp only [is_supported_controller, SUPPORTED_PRODUCTS, product_in_table, VENDOR_SONY,
    PRODUCT_SIXAXIS, PRODUCT_MOVE, PRODUCT_DS4]
  split_ifs <;> simp_all

/-- Witness for C7 at vendor 0x054c, product 0x09cc. -/
theorem claim7_witness : is_supported_controller 0x054c 0x09cc = true :=
  (claim7_supported_iff 0x054c 0x09cc (by decide) (by decide)).2.1

/-! Claim C10: the bytes_to_mac_string guard. -/

/-- C10: bytes_to_mac_string fails, leaving the output untouched,
exactly when a pointer is NULL or the buffer is shorter than 18 (with
colons) or 13 (without); otherwise it succeeds and writes the
formatted text. -/
theorem claim10_format_guard (inNull outNull : Bool) (b : List Nat) (outLen : Nat)
    (uc : Bool) :
    (bytes_to_mac_string inNull outNull b outLen uc = none ↔
      (inNull = true ∨ outNull = true ∨ outLen < (if uc then 18 else 13)))
    ∧ (inNull = false → outNull = false → (if uc then 18 else 13) ≤ outLen →
        bytes_to_mac_string inNull outNull b outLen uc = some (bytes_to_mac_chars b uc)) := by
  cases inNull <;> cases outNull <;> cases uc <;>
    simp [bytes_to_mac_string] <;> omega

/-! Claim C6: the connection strategy attempt sequence. -/

/-- C6: with path open and vendor-product open failing, a DualShock 4
record proceeds to the raw device route as the third and last attempt
and yields that route's handle; any other record retries one more
vendor-product open as the third attempt. -/
theorem claim6_connection_strategy (t : Transport) (c : CRec) (p : List Char)
    (h1 : t.openPathR = none) (h2 : t.openVidPidR = none) :
    (c.product_id = PRODUCT_DS4 → t.rawFindR = some p →
      connect_to_controller t c = (t.rawOpenR, [Att.path, Att.vidpid, Att.rawdev]))
    ∧ (c.product_id ≠ PRODUCT_DS4 →
      connect_to_controller t c = (t.openVidPidR2, [Att.path, Att.vidpid, Att.vidpid]))
    ∧ (∀ hdl, c.product_id = PRODUCT_DS4 → t.rawFindR = some p →
        t.rawOpenR = some hdl → (connect_to_controller t c).1 = some hdl) := by
  refine ⟨fun hd hr => ?_, fun hd => ?_, fun hdl hd hr ho => ?_⟩
  · simp [connect_to_controller, connect_to_dualshock4_raw, h1, h2, hd, hr]
  · simp [connect_to_controller, connect_to_dualshock4_raw, h1, h2, hd]
  · simp [connect_to_controller, connect_to_dualshock4_raw, h1, h2, hd, hr, ho]

/-- Witness for C6: a DualShock 4 record over a transport where only
the raw route succeeds connects through it. -/
theorem claim6_witness :
    connect_to_controller rawOnlyTransport ds4Rec =
      (some 7, [Att.path, Att.vidpid, Att.rawdev]) := by
  have h := claim6_connection_strategy rawOnlyTransport ds4Rec ['h', 'i', 'd'] rfl rfl
  exact h.1 rfl rfl

/-! Claim C3: the read_pairing report id sequence. -/

/-- C3: show_pairing first issues report 0xF5; a DualShock 4 retries
with 0x12 and then 0x81 exactly while fewer than 8 bytes come back;
other devices make a single attempt; the first response of at least 8
bytes supplies the MAC as its bytes 2 to 7 unswapped, and the read
fails when no attempt reaches 8 bytes. -/
theorem claim3_read_pairing (dv : Option DevInfo) (g : Nat → Int × List Nat) :
    (8 ≤ (g 0).1 → show_pairing dv g =
      ([Ev.featureGet 0xF5, Ev.showMac (macOf (g 0).2)], some (macOf (g 0).2)))
    ∧ (is_dualshock4 dv = false → (g 0).1 < 8 →
        show_pairing dv g = ([Ev.featureGet 0xF5], none))
    ∧ (is_dualshock4 dv = true → (g 0).1 < 8 → 8 ≤ (g 1).1 →
        show_pairing dv g =
          ([Ev.featureGet 0xF5, Ev.featureGet 0x12, Ev.showMac (macOf (g 1).2)],
            some (macOf (g 1).2)))
    ∧ (is_dualshock4 dv = true → (g 0).1 < 8 → (g 1).1 < 8 → 8 ≤ (g 2).1 →
        show_pairing dv g =
          ([Ev.featureGet 0xF5, Ev.featureGet 0x12, Ev.featureGet 0x81,
            Ev.showMac (macOf (g 2).2)], some (macOf (g 2).2)))
    ∧ (is_dualshock4 dv = true → (g 0).1 < 8 → (g 1).1 < 8 → (g 2).1 < 8 →
        show_pairing dv g =
          ([Ev.featureGet 0xF5, Ev.featureGet 0x12, Ev.featureGet 0x81], none))
    ∧ (∀ b0 b1 b2 b3 b4 b5 b6 b7 : Nat,
        macOf [b0, b1, b2, b3, b4, b5, b6, b7] = [b2, b3, b4, b5, b6, b7]) := by
  refine ⟨fun h0 => ?_, fun hd h0 => ?_, fun hd h0 h1 => ?_, fun hd h0 h1 h2 => ?_,
    fun hd h0 h1 h2 => ?_, fun b0 b1 b2 b3 b4 b5 b6 b7 => ?_⟩
  · cases hds : is_dualshock4 dv <;>
      simp [show_pairing, hds, not_lt.mpr h0]
  · simp [show_pairing, hd, h0]
  · simp [show_pairing, hd, h0, not_lt.mpr h1]
  · simp [show_pairing, hd, h0, h1, not_lt.mpr h2]
  · simp [show_pairing, hd, h0, h1, h2]
  · simp [macOf]

/-- Witness for C3: a DualShock 4 whose 0xF5 attempt returns 4 bytes
and whose 0x12 attempt returns 8 bytes reads the MAC from the second
response. -/
theorem claim3_witness :
    show_pairing (some devDs4If3)
        (fun k => if k = 0 then (4, [0, 0]) else (8, [0x12, 0, 1, 2, 3, 4, 5, 6])) =
      ([Ev.featureGet 0xF5, Ev.featureGet 0x12, Ev.showMac [1, 2, 3, 4, 5, 6]],
        some [1, 2, 3, 4, 5, 6]) := by
  have h := claim3_read_pairing (some devDs4If3)
    (fun k => if k = 0 then (4, [0, 0]) else (8, [0x12, 0, 1, 2, 3, 4, 5, 6]))
  have := h.2.2.1 (by decide) (by decide) (by decide)
  simpa [macOf] using this

/-! Claim C4: the write_pairing retry buffers. -/

/-- C4: for a DualShock 4, the retry buffers differ from the primary
0xF5 buffer only in byte 0 (0x12 then 0x81, reserved byte and MAC
bytes unchanged), the write succeeds on the first accepted send, and
fails only when all three sends return -1. -/
theorem claim4_write_retries (dv : Option DevInfo) (mac : List Char) (m : List Nat)
    (o : Nat → Int) (hds : is_dualshock4 dv = true)
    (hlen : mac.length = 12 ∨ mac.length = 17) (hm : mac_to_bytes mac 6 = some m) :
    (o 0 ≠ -1 → pair_device dv mac o = ([Ev.featureSend (0xF5 :: 0x00 :: m)], true))
    ∧ (o 0 = -1 → o 1 ≠ -1 → pair_device dv mac o =
        ([Ev.featureSend (0xF5 :: 0x00 :: m), Ev.featureSend (0x12 :: 0x00 :: m)], true))
    ∧ (o 0 = -1 → o 1 = -1 → o 2 ≠ -1 → pair_device dv mac o =
        ([Ev.featureSend (0xF5 :: 0x00 :: m), Ev.featureSend (0x12 :: 0x00 :: m),
          Ev.featureSend (0x81 :: 0x00 :: m)], true))
    ∧ (o 0 = -1 → o 1 = -1 → o 2 = -1 → pair_device dv mac o =
        ([Ev.featureSend (0xF5 :: 0x00 :: m), Ev.featureSend (0x12 :: 0x00 :: m),
          Ev.featureSend (0x81 :: 0x00 :: m)], false)) := by
  refine ⟨fun h0 => ?_, fun h0 h1 => ?_, fun h0 h1 h2 => ?_, fun h0 h1 h2 => ?_⟩
  · simp [pair_device, hlen, hm, hds, h0]
  · simp [pair_device, hlen, hm, hds, h0, h1]
  · simp [pair_device, hlen, hm, hds, h0, h1, h2]
  · simp [pair_device, hlen, hm, hds, h0, h1, h2]

/-- Witness for C4: with the first send rejected and the second
accepted, exactly the 0xF5 and 0x12 buffers are sent. -/
theorem claim4_witness :
    pair_device (some devDs4If3) ['0', '0', '1', '1', '2', '2', '3', '3', '4', '4', '5', '5']
        (fun k => if k = 0 then -1 else 0) =
      ([Ev.featureSend [0xF5, 0x00, 0x00, 0x11, 0x22, 0x33, 0x44, 0x55],
        Ev.featureSend [0x12, 0x00, 0x00, 0x11, 0x22, 0x33, 0x44, 0x55]], true) := by
  have h := claim4_write_retries (some devDs4If3)
    ['0', '0', '1', '1', '2', '2', '3', '3', '4', '4', '5', '5']
    [0x00, 0x11, 0x22, 0x33, 0x44, 0x55] (fun k => if k = 0 then -1 else 0)
    (by decide) (by decide) (by decide)
  have := h.2.1 (by decide) (by decide)
  simpa using this

/-! Claim C9: exit status of the no-argument invocation. -/

/-- C9: with no arguments the program shows the current pairing and
exits 0 when discovery, selection and connection succeed; it exits
non-zero when no supported controller is found or the connection
fails. -/
theorem claim9_no_args_exit (e : MainEnv) :
    (e.initOk = true → (find_controllers e.devices MAX_CONTROLLERS).length ≠ 0 →
      0 ≤ e.selectIndex → ∀ hdl, e.connectR = some hdl →
        (main_no_args e).1 = 0
        ∧ Ev.featureGet 0xF5 ∈ (main_no_args e).2
        ∧ (8 ≤ (e.getOracle 0).1 →
            Ev.showMac (macOf (e.getOracle 0).2) ∈ (main_no_args e).2))
    ∧ ((find_controllers e.devices MAX_CONTROLLERS).length = 0 → (main_no_args e).1 ≠ 0)
    ∧ (e.connectR = none → (main_no_args e).1 ≠ 0) := by
  refine ⟨fun hi hn hs hdl hc => ?_, fun h0 => ?_, fun hc => ?_⟩
  · have hns : ¬ e.selectIndex < 0 := not_lt.mpr hs
    have hm : main_no_args e =
        (0, [Ev.enumerateDevs, Ev.connectDev] ++ (show_pairing e.handleInfo e.getOracle).1) := by
      simp [main_no_args, hi, hn, hns, hc]
    rw [hm]
    refine ⟨rfl, ?_, fun h8 => ?_⟩
    · simp only [List.mem_append]
      right
      unfold show_pairing
      split_ifs <;> simp
    · simp only [List.mem_append]
      right
      have h8' : ¬ (e.getOracle 0).1 < 8 := not_lt.mpr h8
      unfold show_pairing
      split_ifs <;> simp_all
  · unfold main_no_args
    split_ifs <;> simp_all
  · unfold main_no_args
    split_ifs <;> simp_all

/-! Claim C8: malformed MAC input versus device I/O. -/

/-- Counterexample to C8 as stated: in a run whose discovery and
connection succeed, a malformed MAC argument still leads to the
enumeration and connection I/O happening first, with the format error
reported only afterwards (and exit status 0), so the error is not
reported before any device I/O. -/
theorem claim8_counterexample :
    main_with_mac ['z', 'z'] okEnv = (0, [Ev.enumerateDevs, Ev.connectDev, Ev.macError]) := by
  simp [main_with_mac, okEnv, find_controllers, collect_controllers, create_controller_info,
    is_supported_controller, product_in_table, SUPPORTED_PRODUCTS, VENDOR_SONY,
    PRODUCT_SIXAXIS, PRODUCT_MOVE, PRODUCT_DS4, DS4_HID_INTERFACE, devSixaxis,
    sortOuter, pair_device, mac_to_bytes, MAX_CONTROLLERS]

/-- C8 amended: for every malformed MAC input the write never reaches
the protocol layer: pair_device reports the format error without any
transport call, and no feature report of either kind is ever issued in
the whole run; the enumeration and connection I/O, however, do happen
before the MAC is validated. -/
theorem claim8_amended (e : MainEnv) (mac : List Char)
    (h : ¬(mac.length = 12 ∨ mac.length = 17) ∨ mac_to_bytes mac 6 = none) :
    pair_device e.handleInfo mac e.sendOracle = ([Ev.macError], false)
    ∧ (∀ b, Ev.featureSend b ∉ (main_with_mac mac e).2)
    ∧ (∀ i, Ev.featureGet i ∉ (main_with_mac mac e).2) := by
  have hp : pair_device e.handleInfo mac e.sendOracle = ([Ev.macError], false) := by
    unfold pair_device
    rcases h with h | h
    · rw [if_neg h]
    · by_cases hl : mac.length = 12 ∨ mac.length = 17
      · rw [if_pos hl, h]
      · rw [if_neg hl]
  have ht : (main_with_mac mac e).2 = []
      ∨ (main_with_mac mac e).2 = [Ev.enumerateDevs]
      ∨ (main_with_mac mac e).2 = [Ev.enumerateDevs, Ev.connectDev]
      ∨ (main_with_mac mac e).2 = [Ev.enumerateDevs, Ev.connectDev, Ev.macError] := by
    unfold main_with_mac
    split_ifs
    · simp
    · simp
    · simp
    · rcases hc : e.connectR with _ | n
      · simp [hc]
      · simp [hc, hp]
  refine ⟨hp, fun b => ?_, fun i => ?_⟩ <;>
    rcases ht with h' | h' | h' | h' <;> rw [h'] <;> simp

/-- Witness for C8 amended, at a 2-character MAC argument. -/
theorem claim8_witness :
    pair_device okEnv.handleInfo ['z', 'z'] okEnv.sendOracle = ([Ev.macError], false) :=
  (claim8_amended okEnv ['z', 'z'] (by decide)).1

/-! Hex codec lemmas for claims C1 and C2. -/

/-- Decoding inverts the lower-case hex digit encoding. -/
lemma char_to_nibble_hexChar : ∀ n < 16, char_to_nibble (hexChar n) = n := by decide

/-- Encoded digits satisfy the isxdigit test. -/
lemma isxdigit_hexChar : ∀ n < 16, isxdigit (hexChar n) = true := by decide

/-- Encoded digits are never the colon separator. -/
lemma hexChar_ne_colon : ∀ n < 16, hexChar n ≠ ':' := by decide

/-- Encoded digits are decimal digits or lower-case a to f. -/
lemma hexChar_range :
    ∀ n < 16, ('0' ≤ hexChar n ∧ hexChar n ≤ '9') ∨ ('a' ≤ hexChar n ∧ hexChar n ≤ 'f') := by
  decide

/-- The shift-or combination of two nibbles is their base-16 value. -/
lemma lor_shift_nibbles : ∀ x < 16, ∀ y < 16,
    Nat.lor (Nat.shiftLeft x 4) y = 16 * x + y := by decide

/-- Parsing the two hex characters of a byte recovers the byte. -/
lemma byteOfPair_hexChar (b : Nat) (hb : b < 256) :
    byteOfPair (hexChar (b / 16)) (hexChar (b % 16)) = b := by
  have h1 : b / 16 < 16 := by omega
  have h2 : b % 16 < 16 := Nat.mod_lt _ (by norm_num)
  unfold byteOfPair
  rw [char_to_nibble_hexChar _ h1, char_to_nibble_hexChar _ h2, lor_shift_nibbles _ h1 _ h2]
  omega

/-- byteToHex of a byte below 256 in explicit digit form. -/
lemma byteToHex_lt (b : Nat) (hb : b < 256) :
    byteToHex b = [hexChar (b / 16), hexChar (b % 16)] := by
  unfold byteToHex
  rw [Nat.mod_eq_of_lt hb]

/-- One digit-pair step of the parse loop. -/
lemma macLoop_step_pair (c1 c2 : Char) (rest : List Char) (cap : Nat) (acc : List Nat)
    (h1 : ¬ c1 = ':') (hx1 : isxdigit c1 = true) (hx2 : isxdigit c2 = true) :
    macLoop (c1 :: c2 :: rest) (cap + 1) acc = macLoop rest cap (acc ++ [byteOfPair c1 c2]) := by
  simp [macLoop, h1, hx1, hx2]

/-- One colon-skipping step of the parse loop. -/
lemma macLoop_step_colon (c2 : Char) (rest : List Char) (cap : Nat) (acc : List Nat) :
    macLoop (':' :: c2 :: rest) (cap + 1) acc = macLoop (c2 :: rest) (cap + 1) acc := by
  simp [macLoop]

/-- The parse loop consumes a separator-free rendering entirely,
appending exactly the rendered bytes, capacity permitting. -/
lemma macLoop_hexConcat : ∀ (bs : List Nat) (cap : Nat) (acc : List Nat),
    (∀ x ∈ bs, x < 256) → bs.length ≤ cap →
    macLoop (hexConcat bs) cap acc = some (acc ++ bs, []) := by
  intro bs
  induction bs with
  | nil => intro cap acc _ _; simp [hexConcat, macLoop]
  | cons b bs ih =>
    intro cap acc hx hc
    have hb : b < 256 := hx b (by simp)
    have h1 : b / 16 < 16 := by omega
    have h2 : b % 16 < 16 := Nat.mod_lt _ (by norm_num)
    obtain ⟨cap', rfl⟩ : ∃ c, cap = c + 1 := ⟨cap - 1, by simp at hc; omega⟩
    have hsh : hexConcat (b :: bs) = hexChar (b / 16) :: hexChar (b % 16) :: hexConcat bs := by
      rw [hexConcat, byteToHex_lt b hb]; rfl
    rw [hsh, macLoop_step_pair _ _ _ _ _ (hexChar_ne_colon _ h1) (isxdigit_hexChar _ h1)
      (isxdigit_hexChar _ h2), byteOfPair_hexChar b hb,
      ih cap' (acc ++ [b]) (fun x hx' => hx x (by simp [hx'])) (by simp at hc ⊢; omega)]
    simp

/-- The parse loop consumes a colon-separated rendering entirely,
appending exactly the rendered bytes, capacity permitting. -/
lemma macLoop_hexColon : ∀ (bs : List Nat) (cap : Nat) (acc : List Nat),
    (∀ x ∈ bs, x < 256) → bs.length ≤ cap →
    macLoop (hexColon bs) cap acc = some (acc ++ bs, []) := by
  intro bs
  induction bs with
  | nil => intro cap acc _ _; simp [hexColon, macLoop]
  | cons b bs ih =>
    intro cap acc hx hc
    have hb : b < 256 := hx b (by simp)
    have h1 : b / 16 < 16 := by omega
    have h2 : b % 16 < 16 := Nat.mod_lt _ (by norm_num)
    cases bs with
    | nil =>
      obtain ⟨cap', rfl⟩ : ∃ c, cap = c + 1 := ⟨cap - 1, by simp at hc; omega⟩
      have hsh : hexColon [b] = hexChar (b / 16) :: hexChar (b % 16) :: [] := by
        rw [hexColon, byteToHex_lt b hb]
      rw [hsh, macLoop_step_pair _ _ _ _ _ (hexChar_ne_colon _ h1) (isxdigit_hexChar _ h1)
        (isxdigit_hexChar _ h2), byteOfPair_hexChar b hb]
      simp [macLoop]
    | cons b2 rest =>
      obtain ⟨cap', rfl⟩ : ∃ c, cap = c + 2 := ⟨cap - 2, by simp at hc; omega⟩
      have hb2 : b2 < 256 := hx b2 (by simp)
      have hcdr : ∃ t, hexColon (b2 :: rest) = hexChar (b2 / 16) :: hexChar (b2 % 16) :: t := by
        cases rest with
        | nil => exact ⟨[], by simp [hexColon, byteToHex_lt b2 hb2]⟩
        | cons c cs => exact ⟨':' :: hexColon (c :: cs), by simp [hexColon, byteToHex_lt b2 hb2]⟩
      obtain ⟨t, ht⟩ := hcdr
      have hsh : hexColon (b :: b2 :: rest) =
          hexChar (b / 16) :: hexChar (b % 16) :: ':' :: hexColon (b2 :: rest) := by
        simp [hexColon, byteToHex_lt b hb]
      rw [hsh, macLoop_step_pair _ _ _ _ _ (hexChar_ne_colon _ h1) (isxdigit_hexChar _ h1)
        (isxdigit_hexChar _ h2), byteOfPair_hexChar b hb, ht, macLoop_step_colon, ← ht,
        ih (cap' + 1) (acc ++ [b]) (fun x hx' => hx x (by simp [hx'])) (by simp at hc ⊢; omega)]
      simp

/-- Length of the separator-free rendering. -/
lemma hexConcat_length : ∀ bs : List Nat, (hexConcat bs).length = 2 * bs.length := by
  intro bs
  induction bs with
  | nil => simp [hexConcat]
  | cons b bs ih => simp [hexConcat, byteToHex, ih]; omega

/-- Length of the colon-separated rendering of a nonempty list. -/
lemma hexColon_length : ∀ bs : List Nat, bs ≠ [] → (hexColon bs).length = 3 * bs.length - 1 := by
  intro bs
  induction bs with
  | nil => intro h; exact absurd rfl h
  | cons b bs ih =>
    intro _
    cases bs with
    | nil => simp [hexColon, byteToHex]
    | cons b2 rest =>
      have := ih (by simp)
      simp [hexColon, byteToHex] at this ⊢
      omega

/-- Every character of the separator-free rendering is a hex digit. -/
lemma hexConcat_chars : ∀ bs : List Nat, ∀ c ∈ hexConcat bs,
    ('0' ≤ c ∧ c ≤ '9') ∨ ('a' ≤ c ∧ c ≤ 'f') := by
  intro bs
  induction bs with
  | nil => simp [hexConcat]
  | cons b bs ih =>
    intro c hc
    have h1 : b % 256 / 16 < 16 := by omega
    have h2 : b % 256 % 16 < 16 := Nat.mod_lt _ (by norm_num)
    simp only [hexConcat, byteToHex, List.mem_append, List.mem_cons, List.not_mem_nil,
      or_false] at hc
    rcases hc with (rfl | rfl) | hc
    · exact hexChar_range _ h1
    · exact hexChar_range _ h2
    · exact ih c hc

/-- Every character of the colon rendering is a colon or hex digit. -/
lemma hexColon_chars : ∀ bs : List Nat, ∀ c ∈ hexColon bs,
    c = ':' ∨ ('0' ≤ c ∧ c ≤ '9') ∨ ('a' ≤ c ∧ c ≤ 'f') := by
  intro bs
  induction bs with
  | nil => simp [hexColon]
  | cons b bs ih =>
    intro c hc
    have h1 : b % 256 / 16 < 16 := by omega
    have h2 : b % 256 % 16 < 16 := Nat.mod_lt _ (by norm_num)
    cases bs with
    | nil =>
      simp only [hexColon, byteToHex, List.mem_cons, List.not_mem_nil, or_false] at hc
      rcases hc with rfl | rfl
      · exact Or.inr (hexChar_range _ h1)
      · exact Or.inr (hexChar_range _ h2)
    | cons b2 rest =>
      simp only [hexColon, byteToHex, List.cons_append, List.nil_append,
        List.mem_cons] at hc
      rcases hc with rfl | rfl | rfl | hc
      · exact Or.inr (hexChar_range _ h1)
      · exact Or.inr (hexChar_range _ h2)
      · exact Or.inl rfl
      · exact ih c hc

/-- The parse loop grows the accumulator by at most its capacity. -/
lemma macLoop_acc_le : ∀ (n : Nat) (cs : List Char), cs.length ≤ n →
    ∀ cap acc acc' left, macLoop cs cap acc = some (acc', left) →
    acc'.length ≤ acc.length + cap := by
  intro n
  induction n with
  | zero =>
    intro cs h cap acc acc' left heq
    have hnil : cs = [] := List.length_eq_zero.mp (by omega)
    subst hnil
    simp only [macLoop, Option.some.injEq, Prod.mk.injEq] at heq
    obtain ⟨rfl, rfl⟩ := heq
    omega
  | succ n ih =>
    intro cs h cap acc acc' left heq
    rcases cs with _ | ⟨c1, _ | ⟨c2, rest⟩⟩
    · simp only [macLoop, Option.some.injEq, Prod.mk.injEq] at heq
      obtain ⟨rfl, rfl⟩ := heq
      omega
    · simp only [macLoop, Option.some.injEq, Prod.mk.injEq] at heq
      obtain ⟨rfl, rfl⟩ := heq
      omega
    · rcases cap with _ | cap
      · simp only [macLoop, Option.some.injEq, Prod.mk.injEq] at heq
        obtain ⟨rfl, rfl⟩ := heq
        omega
      · by_cases hcol : c1 = ':'
        · subst hcol
          rw [macLoop_step_colon] at heq
          have := ih (c2 :: rest) (by simp at h ⊢; omega) (cap + 1) acc acc' left heq
          omega
        · by_cases hx : (isxdigit c1 && isxdigit c2) = true
          · rw [Bool.and_eq_true] at hx
            rw [macLoop_step_pair c1 c2 rest cap acc hcol hx.1 hx.2] at heq
            have := ih rest (by simp at h ⊢; omega) cap (acc ++ [byteOfPair c1 c2])
              acc' left heq
            simp at this
            omega
          · have hnone : macLoop (c1 :: c2 :: rest) (cap + 1) acc = none := by
              simp [macLoop, hcol, hx]
            rw [hnone] at heq
            exact absurd heq (by simp)

/-- When the parse loop consumes everything, every input character is
a colon or a valid hex digit. -/
lemma macLoop_chars : ∀ (n : Nat) (cs : List Char), cs.length ≤ n →
    ∀ cap acc acc', macLoop cs cap acc = some (acc', []) →
    ∀ c ∈ cs, c = ':' ∨ isxdigit c = true := by
  intro n
  induction n with
  | zero =>
    intro cs h cap acc acc' heq
    have hnil : cs = [] := List.length_eq_zero.mp (by omega)
    subst hnil
    simp
  | succ n ih =>
    intro cs h cap acc acc' heq
    rcases cs with _ | ⟨c1, _ | ⟨c2, rest⟩⟩
    · simp
    · simp [macLoop] at heq
    · rcases cap with _ | cap
      · simp [macLoop] at heq
      · intro c hc
        simp only [List.mem_cons] at hc
        by_cases hcol : c1 = ':'
        · subst hcol
          rw [macLoop_step_colon] at heq
          have hrec := ih (c2 :: rest) (by simp at h ⊢; omega) (cap + 1) acc acc' heq
          rcases hc with rfl | rfl | hc
          · exact Or.inl rfl
          · exact hrec c (by simp)
          · exact hrec c (by simp [hc])
        · by_cases hx : (isxdigit c1 && isxdigit c2) = true
          · rw [Bool.and_eq_true] at hx
            rw [macLoop_step_pair c1 c2 rest cap acc hcol hx.1 hx.2] at heq
            have hrec := ih rest (by simp at h ⊢; omega) cap (acc ++ [byteOfPair c1 c2]) acc' heq
            rcases hc with rfl | rfl | hc
            · exact Or.inr hx.1
            · exact Or.inr hx.2
            · exact hrec c hc
          · have hnone : macLoop (c1 :: c2 :: rest) (cap + 1) acc = none := by
              simp [macLoop, hcol, hx]
            rw [hnone] at heq
            exact absurd heq (by simp)

/-! Claim C1: what the accepted MAC inputs look like. -/

/-- Counterexample to C1 as stated: a 17-character input in which
extra colons stand in for hex pairs is accepted by the length gate and
by mac_to_bytes although only 4 byte pairs were parsed; the claim
demands that an accepted prefix yielding fewer than 6 bytes be
rejected. -/
theorem claim1_counterexample :
    mac_to_bytes
        ['a', 'a', ':', ':', ':', ':', ':', ':', ':', 'b', 'b', ':', 'c', 'c', ':', 'd', 'd'] 6 =
      some [0xaa, 0xbb, 0xcc, 0xdd, 0, 0]
    ∧ (['a', 'a', ':', ':', ':', ':', ':', ':', ':', 'b', 'b', ':', 'c', 'c', ':', 'd', 'd'] :
        List Char).length = 17
    ∧ macLoop
        ['a', 'a', ':', ':', ':', ':', ':', ':', ':', 'b', 'b', ':', 'c', 'c', ':', 'd', 'd'] 6 [] =
      some ([0xaa, 0xbb, 0xcc, 0xdd], []) := by
  decide

/-- C1 amended: an accepted input (length 12 or 17 and mac_to_bytes
succeeding) is consumed entirely with every character a colon or hex
digit, and the 6-byte output buffer is the parsed bytes padded with
zeros; but at most 6 byte pairs are guaranteed, not exactly 6: a fully
consumed input with fewer pairs is still accepted. -/
theorem claim1_parse_amended (s : List Char) (m : List Nat)
    (hlen : s.length = 12 ∨ s.length = 17) (hp : mac_to_bytes s 6 = some m) :
    m.length = 6
    ∧ (∀ c ∈ s, c = ':' ∨ isxdigit c = true)
    ∧ (∃ acc, macLoop s 6 [] = some (acc, []) ∧ acc.length ≤ 6
        ∧ m = acc ++ List.replicate (6 - acc.length) 0) := by
  have hs0 : ¬ (s.length = 0 ∨ 6 = 0) := by rcases hlen with h | h <;> simp [h]
  unfold mac_to_bytes at hp
  rw [if_neg hs0] at hp
  rcases hml : macLoop s 6 [] with _ | ⟨acc, left⟩
  · simp only [hml] at hp
    exact absurd hp (by simp)
  · simp only [hml] at hp
    by_cases hl : left = []
    · subst hl
      rw [if_pos rfl] at hp
      have hm : m = acc ++ List.replicate (6 - acc.length) 0 := by
        exact (Option.some_injective _ hp).symm
      have hacc : acc.length ≤ 6 := by
        have := macLoop_acc_le s.length s le_rfl 6 [] acc [] hml
        simpa using this
      refine ⟨?_, macLoop_chars s.length s le_rfl 6 [] acc hml, acc, rfl, hacc, hm⟩
      rw [hm, List.length_append, List.length_replicate]
      omega
    · rw [if_neg hl] at hp
      exact absurd hp (by simp)

/-- Witness for C1 amended at the canonical colon-separated input. -/
theorem claim1_witness :
    ([0xaa, 0xbb, 0xcc, 0xdd, 0xee, 0xff] : List Nat).length = 6 :=
  (claim1_parse_amended
    ['a', 'a', ':', 'b', 'b', ':', 'c', 'c', ':', 'd', 'd', ':', 'e', 'e', ':', 'f', 'f']
    [0xaa, 0xbb, 0xcc, 0xdd, 0xee, 0xff] (by decide) (by decide)).1

/-! Claim C2: the codec round trip. -/

/-- C2: for every 6-byte MAC, formatting with or without colons and
parsing back returns the same bytes; the colon form is 17 characters,
the bare form 12, and every emitted character is deterministic
lower-case hex (or the colon separator). -/
theorem claim2_roundtrip (b : List Nat) (hlen : b.length = 6) (hb : ∀ x ∈ b, x < 256) :
    mac_to_bytes (bytes_to_mac_chars b true) 6 = some b
    ∧ mac_to_bytes (bytes_to_mac_chars b false) 6 = some b
    ∧ (bytes_to_mac_chars b true).length = 17
    ∧ (bytes_to_mac_chars b false).length = 12
    ∧ (∀ c ∈ bytes_to_mac_chars b true,
        c = ':' ∨ ('0' ≤ c ∧ c ≤ '9') ∨ ('a' ≤ c ∧ c ≤ 'f'))
    ∧ (∀ c ∈ bytes_to_mac_chars b false,
        ('0' ≤ c ∧ c ≤ '9') ∨ ('a' ≤ c ∧ c ≤ 'f')) := by
  have hbne : b ≠ [] := by intro h; rw [h] at hlen; simp at hlen
  have hlc : (hexColon b).length = 17 := by rw [hexColon_length b hbne, hlen]
  have hlf : (hexConcat b).length = 12 := by rw [hexConcat_length b, hlen]
  have hml1 := macLoop_hexColon b 6 [] hb (by omega)
  have hml2 := macLoop_hexConcat b 6 [] hb (by omega)
  refine ⟨?_, ?_, hlc, hlf, ?_, ?_⟩
  · show mac_to_bytes (hexColon b) 6 = some b
    unfold mac_to_bytes
    rw [if_neg (by simp [hlc]), hml1]
    simp [hlen]
  · show mac_to_bytes (hexConcat b) 6 = some b
    unfold mac_to_bytes
    rw [if_neg (by simp [hlf]), hml2]
    simp [hlen]
  · simpa [bytes_to_mac_chars] using hexColon_chars b
  · simpa [bytes_to_mac_chars] using hexConcat_chars b

/-- Witness for C2 at a concrete 6-byte MAC. -/
theorem claim2_witness :
    mac_to_bytes (bytes_to_mac_chars [0xaa, 0xbb, 0xcc, 0xdd, 0xee, 0xff] true) 6 =
      some [0xaa, 0xbb, 0xcc, 0xdd, 0xee, 0xff] :=
  (claim2_roundtrip [0xaa, 0xbb, 0xcc, 0xdd, 0xee, 0xff] (by decide) (by decide)).1

/-! Index and swap lemmas for the find_controllers sort (claim C5). -/

/-- Reading back the element just written by set. -/
lemma nth_set_self : ∀ (l : List CRec) (n : Nat) (a : CRec), n < l.length →
    nth (l.set n a) n = a := by
  intro l
  induction l with
  | nil => intro n a h; simp at h
  | cons x t ih =>
    intro n a h
    cases n with
    | zero => rfl
    | succ n => exact ih n a (by simpa using h)

/-- set leaves every other position unchanged. -/
lemma nth_set_ne : ∀ (l : List CRec) (k n : Nat) (a : CRec), k ≠ n →
    nth (l.set n a) k = nth l k := by
  intro l
  induction l with
  | nil => intro k n a _; simp [nth, List.set]
  | cons x t ih =>
    intro k n a hkn
    cases n with
    | zero =>
      cases k with
      | zero => exact absurd rfl hkn
      | succ k => rfl
    | succ n =>
      cases k with
      | zero => rfl
      | succ k => exact ih k n a (fun h => hkn (by rw [h]))

/-- The swap leaves the list length unchanged. -/
lemma lswap_length (l : List CRec) (i j : Nat) : (lswap l i j).length = l.length := by
  simp [lswap]

/-- Position i of the swap holds the old element j. -/
lemma nth_lswap_left (l : List CRec) (i j : Nat) (hij : i ≠ j) (hi : i < l.length) :
    nth (lswap l i j) i = nth l j := by
  unfold lswap
  rw [nth_set_ne _ i j _ hij, nth_set_self _ i _ hi]

/-- Position j of the swap holds the old element i. -/
lemma nth_lswap_right (l : List CRec) (i j : Nat) (hj : j < l.length) :
    nth (lswap l i j) j = nth l i := by
  unfold lswap
  rw [nth_set_self _ j _ (by simpa using hj)]

/-- The swap leaves all other positions unchanged. -/
lemma nth_lswap_other (l : List CRec) (i j k : Nat) (hki : k ≠ i) (hkj : k ≠ j) :
    nth (lswap l i j) k = nth l k := by
  unfold lswap
  rw [nth_set_ne _ k j _ hkj, nth_set_ne _ k i _ hki]

/-- Moving an element of a list to the front while overwriting its
slot is a permutation of consing the overwriting element. -/
lemma set_cons_perm : ∀ (t : List CRec) (m : Nat) (x : CRec), m < t.length →
    List.Perm (nth t m :: t.set m x) (x :: t) := by
  intro t
  induction t with
  | nil => intro m x h; simp at h
  | cons z t' ih =>
    intro m x h
    cases m with
    | zero => exact List.Perm.swap x z t'
    | succ m =>
      have h' : m < t'.length := by simpa using h
      show List.Perm (nth t' m :: z :: t'.set m x) (x :: z :: t')
      exact ((List.Perm.swap z (nth t' m) (t'.set m x)).trans
        ((ih m x h').cons z)).trans (List.Perm.swap x z t')

/-- The swap is a permutation. -/
lemma lswap_perm : ∀ (l : List CRec) (i j : Nat), i < l.length → j < l.length →
    List.Perm (lswap l i j) l := by
  intro l
  induction l with
  | nil => intro i j h _; simp at h
  | cons x t ih =>
    intro i j hi hj
    cases i with
    | zero =>
      cases j with
      | zero => show List.Perm (x :: t) (x :: t); exact List.Perm.refl _
      | succ j =>
        have hj' : j < t.length := by simpa using hj
        show List.Perm (nth t j :: t.set j x) (x :: t)
        exact set_cons_perm t j x hj'
    | succ i =>
      cases j with
      | zero =>
        have hi' : i < t.length := by simpa using hi
        show List.Perm (nth t i :: t.set i x) (x :: t)
        exact set_cons_perm t i x hi'
      | succ j =>
        have hi' : i < t.length := by simpa using hi
        have hj' : j < t.length := by simpa using hj
        show List.Perm (x :: lswap t i j) (x :: t)
        exact (ih i j hi' hj').cons x

/-- Overwriting the first preferred element with a non-preferred one
removes exactly that element from the preferred filtering. -/
lemma filter_set_front : ∀ (t : List CRec) (m : Nat) (x : CRec), m < t.length →
    (∀ k, k < m → (nth t k).is_preferred = false) → (nth t m).is_preferred = true →
    x.is_preferred = false →
    t.filter (fun r => r.is_preferred) =
      nth t m :: (t.set m x).filter (fun r => r.is_preferred) := by
  intro t
  induction t with
  | nil => intro m x h; simp at h
  | cons z t' ih =>
    intro m x hm hbefore hpref hx
    cases m with
    | zero =>
      have hz : z.is_preferred = true := hpref
      show (z :: t').filter _ = z :: ((z :: t').set 0 x).filter _
      simp [List.filter_cons, hz, hx]
    | succ m =>
      have hz : z.is_preferred = false := hbefore 0 (Nat.succ_pos m)
      have hm' : m < t'.length := by simpa using hm
      have hb' : ∀ k, k < m → (nth t' k).is_preferred = false := by
        intro k hk
        exact hbefore (k + 1) (by omega)
      have ihh := ih m x hm' hb' hpref hx
      show (z :: t').filter _ = nth t' m :: (z :: t'.set m x).filter _
      simp only [List.filter_cons, hz, Bool.false_eq_true, if_neg, ite_false]
      exact ihh

/-- Swapping a non-preferred element at i with the first preferred
element after it leaves the preferred sublist unchanged. -/
lemma filter_lswap : ∀ (l : List CRec) (i j : Nat), i < j → j < l.length →
    (nth l i).is_preferred = false → (nth l j).is_preferred = true →
    (∀ m, i < m → m < j → (nth l m).is_preferred = false) →
    (lswap l i j).filter (fun r => r.is_preferred) =
      l.filter (fun r => r.is_preferred) := by
  intro l
  induction l with
  | nil => intro i j _ h; simp at h
  | cons x t ih =>
    intro i j hij hj hi hjp hmid
    cases i with
    | zero =>
      obtain ⟨j', rfl⟩ : ∃ j', j = j' + 1 := ⟨j - 1, by omega⟩
      have hj' : j' < t.length := by simpa using hj
      have hx : x.is_preferred = false := hi
      have hjp' : (nth t j').is_preferred = true := hjp
      have hb : ∀ k, k < j' → (nth t k).is_preferred = false := by
        intro k hk
        exact hmid (k + 1) (by omega) (by omega)
      have hfront := filter_set_front t j' x hj' hb hjp' hx
      show (nth t j' :: t.set j' x).filter _ = (x :: t).filter _
      simp only [List.filter_cons, hjp', if_pos, hx, Bool.false_eq_true, ite_false,
        if_neg, ite_true]
      exact hfront.symm
    | succ i =>
      obtain ⟨j', rfl⟩ : ∃ j', j = j' + 1 := ⟨j - 1, by omega⟩
      have hij' : i < j' := by omega
      have hj' : j' < t.length := by simpa using hj
      have hmid' : ∀ m, i < m → m < j' → (nth t m).is_preferred = false := by
        intro m hm1 hm2
        exact hmid (m + 1) (by omega) (by omega)
      have ihh := ih i j' hij' hj' hi hjp hmid'
      show (x :: lswap t i j').filter _ = (x :: t).filter _
      simp only [List.filter_cons]
      rw [ihh]

/-! Behaviour of the inner sort loop (claim C5). -/

/-- The inner loop does nothing when the record at i is preferred. -/
lemma sortInner_pref_i : ∀ (n : Nat) (l : List CRec) (i j : Nat), l.length - j ≤ n →
    (nth l i).is_preferred = true → sortInner i l j = l := by
  intro n
  induction n with
  | zero =>
    intro l i j h hp
    unfold sortInner
    split
    · omega
    · rfl
  | succ n ih =>
    intro l i j h hp
    unfold sortInner
    split
    · rename_i hj
      rw [if_neg (by simp [hp])]
      exact ih l i (j + 1) (by omega) hp
    · rfl

/-- The inner loop does nothing when no record from j on is
preferred. -/
lemma sortInner_no_pref : ∀ (n : Nat) (l : List CRec) (i j : Nat), l.length - j ≤ n →
    (∀ m, j ≤ m → m < l.length → (nth l m).is_preferred = false) →
    sortInner i l j = l := by
  intro n
  induction n with
  | zero =>
    intro l i j h hnone
    unfold sortInner
    split
    · omega
    · rfl
  | succ n ih =>
    intro l i j h hnone
    unfold sortInner
    split
    · rename_i hj
      rw [if_neg (by simp [hnone j le_rfl hj])]
      exact ih l i (j + 1) (by omega) (fun m hm1 hm2 => hnone m (by omega) hm2)
    · rfl

/-- When the record at i is not preferred and j0 is the first
preferred position at or after j, the inner loop performs exactly the
swap of i and j0. -/
lemma sortInner_swap : ∀ (n : Nat) (l : List CRec) (i j j0 : Nat), l.length - j ≤ n →
    i < j → j ≤ j0 → j0 < l.length →
    (nth l i).is_preferred = false → (nth l j0).is_preferred = true →
    (∀ m, j ≤ m → m < j0 → (nth l m).is_preferred = false) →
    sortInner i l j = lswap l i j0 := by
  intro n
  induction n with
  | zero =>
    intro l i j j0 h hij hj0 hjlen _ _ _
    omega
  | succ n ih =>
    intro l i j j0 h hij hjj0 hj0len hip hj0p hmid
    have hjlen : j < l.length := by omega
    unfold sortInner
    rw [dif_pos hjlen]
    by_cases hjeq : j = j0
    · subst hjeq
      rw [if_pos ⟨hj0p, hip⟩]
      have hswapped : (nth (lswap l i j) i).is_preferred = true := by
        rw [nth_lswap_left l i j (by omega) (by omega)]
        exact hj0p
      rw [sortInner_pref_i ((lswap l i j).length - (j + 1)) (lswap l i j) i (j + 1)
        le_rfl hswapped]
    · have hjp : (nth l j).is_preferred = false := hmid j le_rfl (by omega)
      rw [if_neg (by simp [hjp])]
      exact ih l i (j + 1) j0 (by omega) (by omega) (by omega) hj0len hip hj0p
        (fun m hm1 hm2 => hmid m (by omega) hm2)

/-- Case analysis for one inner loop run from position i + 1. -/
lemma sortInner_cases (l : List CRec) (i : Nat) :
    ((nth l i).is_preferred = true ∧ sortInner i l (i + 1) = l)
    ∨ ((nth l i).is_preferred = false
        ∧ (∀ m, i + 1 ≤ m → m < l.length → (nth l m).is_preferred = false)
        ∧ sortInner i l (i + 1) = l)
    ∨ (∃ j0, (nth l i).is_preferred = false ∧ i + 1 ≤ j0 ∧ j0 < l.length
        ∧ (nth l j0).is_preferred = true
        ∧ (∀ m, i + 1 ≤ m → m < j0 → (nth l m).is_preferred = false)
        ∧ sortInner i l (i + 1) = lswap l i j0) := by
  by_cases hip : (nth l i).is_preferred = true
  · exact Or.inl ⟨hip, sortInner_pref_i (l.length - (i + 1)) l i (i + 1) le_rfl hip⟩
  · have hip' : (nth l i).is_preferred = false := by
      cases h : (nth l i).is_preferred
      · rfl
      · exact absurd h hip
    by_cases hex : ∃ m, i + 1 ≤ m ∧ m < l.length ∧ (nth l m).is_preferred = true
    · have hdec : DecidablePred
          (fun m => i + 1 ≤ m ∧ m < l.length ∧ (nth l m).is_preferred = true) := by
        intro m
        infer_instance
      obtain ⟨m0, hm0⟩ := hex
      have hfind := Nat.find_spec (p := fun m => i + 1 ≤ m ∧ m < l.length
        ∧ (nth l m).is_preferred = true) ⟨m0, hm0⟩
      set j0 := Nat.find (p := fun m => i + 1 ≤ m ∧ m < l.length
        ∧ (nth l m).is_preferred = true) ⟨m0, hm0⟩ with hj0def
      refine Or.inr (Or.inr ⟨j0, hip', hfind.1, hfind.2.1, hfind.2.2, ?_, ?_⟩)
      · intro m hm1 hm2
        have hlt : m < j0 := hm2
        have := Nat.find_min (p := fun m => i + 1 ≤ m ∧ m < l.length
          ∧ (nth l m).is_preferred = true) ⟨m0, hm0⟩ hlt
        simp only [not_and] at this
        have hmlen : m < l.length := by omega
        cases h : (nth l m).is_preferred
        · rfl
        · exact absurd h (this hm1 hmlen)
      · exact sortInner_swap (l.length - (i + 1)) l i (i + 1) j0 le_rfl (by omega)
          hfind.1 hfind.2.1 hip' hfind.2.2
          (fun m hm1 hm2 => by
            have := Nat.find_min (p := fun m => i + 1 ≤ m ∧ m < l.length
              ∧ (nth l m).is_preferred = true) ⟨m0, hm0⟩ hm2
            simp only [not_and] at this
            cases h : (nth l m).is_preferred
            · rfl
            · exact absurd h (this hm1 (by omega)))
    · push_neg at hex
      refine Or.inr (Or.inl ⟨hip', ?_, ?_⟩)
      · intro m hm1 hm2
        have := hex m hm1 hm2
        cases h : (nth l m).is_preferred
        · rfl
        · exact absurd h this
      · apply sortInner_no_pref (l.length - (i + 1)) l i (i + 1) le_rfl
        intro m hm1 hm2
        have := hex m hm1 hm2
        cases h : (nth l m).is_preferred
        · rfl
        · exact absurd h this

/-- The partition invariant carried by the outer sort loop: below the
loop index, a non-preferred record is never followed (at any later
position) by a preferred one. -/
def InvP (l : List CRec) (i : Nat) : Prop :=
  ∀ k, k < i → k < l.length → (nth l k).is_preferred = false →
    ∀ m, k ≤ m → m < l.length → (nth l m).is_preferred = false

/-- One unfolding step of the outer loop. -/
lemma sortOuter_step (l : List CRec) (i : Nat) (hc : i + 1 < l.length) :
    sortOuter l i = sortOuter (sortInner i l (i + 1)) (i + 1) := by
  conv_lhs => rw [sortOuter.eq_def]
  rw [if_pos hc]

/-- The outer loop leaving index i with the invariant yields a
permutation of its input of the same length, keeps the preferred
sublist (hence its relative order) intact, and establishes the
invariant everywhere. -/
lemma sortOuter_spec : ∀ (n : Nat) (l : List CRec) (i : Nat), l.length - i ≤ n →
    InvP l i →
    (sortOuter l i).length = l.length
    ∧ List.Perm (sortOuter l i) l
    ∧ (sortOuter l i).filter (fun r => r.is_preferred) = l.filter (fun r => r.is_preferred)
    ∧ InvP (sortOuter l i) (sortOuter l i).length := by
  intro n
  induction n with
  | zero =>
    intro l i h hInv
    have hstop : ¬ (i + 1 < l.length) := by omega
    rw [sortOuter.eq_def, if_neg hstop]
    refine ⟨rfl, List.Perm.refl _, rfl, ?_⟩
    intro k hk hklen hkp m hm1 hm2
    exact hInv k (by omega) hklen hkp m hm1 hm2
  | succ n ih =>
    intro l i h hInv
    by_cases hc : i + 1 < l.length
    case neg =>
      rw [sortOuter.eq_def, if_neg hc]
      refine ⟨rfl, List.Perm.refl _, rfl, ?_⟩
      intro k hk hklen hkp m hm1 hm2
      by_cases hki : k < i
      · exact hInv k hki hklen hkp m hm1 hm2
      · have hkeq : m = k := by omega
        rw [hkeq]
        exact hkp
    case pos =>
      have hilen : i < l.length := by omega
      have hlen' : (sortInner i l (i + 1)).length = l.length := sortInner_length i l (i + 1)
      have hkey : InvP (sortInner i l (i + 1)) (i + 1)
          ∧ List.Perm (sortInner i l (i + 1)) l
          ∧ (sortInner i l (i + 1)).filter (fun r => r.is_preferred) =
            l.filter (fun r => r.is_preferred) := by
        rcases sortInner_cases l i with ⟨hip, heq⟩ | ⟨hip, hnone, heq⟩
          | ⟨j0, hip, hj01, hj0len, hj0p, hmid, heq⟩
        · rw [heq]
          refine ⟨?_, List.Perm.refl _, rfl⟩
          intro k hk hklen hkp m hm1 hm2
          by_cases hki : k < i
          · exact hInv k hki hklen hkp m hm1 hm2
          · have hkeq : k = i := by omega
            rw [hkeq, hip] at hkp
            exact absurd hkp (by simp)
        · rw [heq]
          refine ⟨?_, List.Perm.refl _, rfl⟩
          intro k hk hklen hkp m hm1 hm2
          by_cases hki : k < i
          · exact hInv k hki hklen hkp m hm1 hm2
          · have hkeq : k = i := by omega
            rcases (by omega : m = k ∨ i + 1 ≤ m) with hmeq | hm'
            · rw [hmeq]
              exact hkp
            · exact hnone m hm' hm2
        · rw [heq]
          have hii : i ≠ j0 := by omega
          refine ⟨?_, lswap_perm l i j0 hilen hj0len,
            filter_lswap l i j0 (by omega) hj0len hip hj0p
              (fun m hm1 hm2 => hmid m (by omega) hm2)⟩
          intro k hk hklen hkp m hm1 hm2
          have hklen' : k < l.length := by rwa [lswap_length] at hklen
          by_cases hki : k < i
          · have hkp' : (nth l k).is_preferred = false := by
              rw [nth_lswap_other l i j0 k (by omega) (by omega)] at hkp
              exact hkp
            have hcontra := hInv k hki hklen' hkp' j0 (by omega) hj0len
            rw [hj0p] at hcontra
            exact absurd hcontra (by simp)
          · have hkeq : k = i := by omega
            rw [hkeq, nth_lswap_left l i j0 hii hilen, hj0p] at hkp
            exact absurd hkp (by simp)
      obtain ⟨hInv', hperm', hfilt'⟩ := hkey
      obtain ⟨hL, hP, hF, hI⟩ := ih (sortInner i l (i + 1)) (i + 1)
        (by rw [hlen']; omega) hInv'
      have hunf := sortOuter_step l i hc
      refine ⟨by rw [hunf, hL, hlen'], by rw [hunf]; exact hP.trans hperm',
        by rw [hunf, hF, hfilt'], ?_⟩
      rw [hunf]
      exact hI

/-! Claim C5: ordering produced by find_controllers. -/

/-- A DualShock 4 descriptor on a non-HID interface, id 1. -/
def devDs4If0 : DevInfo := ⟨1, 0x054c, 0x09cc, 0⟩

/-- A DualShock 4 descriptor on a non-HID interface, id 2. -/
def devDs4If1 : DevInfo := ⟨2, 0x054c, 0x09cc, 1⟩

/-- Counterexample to C5 as stated: for the enumeration order
non-preferred id 1, non-preferred id 2, preferred id 3, the sort
returns ids 3, 2, 1, so the two non-preferred records come out in
reversed enumeration order, not the original one. -/
theorem claim5_counterexample :
    ((collect_controllers [devDs4If0, devDs4If1, devDs4If3] MAX_CONTROLLERS).filter
        (fun r => !r.is_preferred)).map (fun r => r.id) = [1, 2]
    ∧ ((find_controllers [devDs4If0, devDs4If1, devDs4If3] MAX_CONTROLLERS).filter
        (fun r => !r.is_preferred)).map (fun r => r.id) = [2, 1]
    ∧ (find_controllers [devDs4If0, devDs4If1, devDs4If3] MAX_CONTROLLERS).map
        (fun r => r.id) = [3, 2, 1] := by
  refine ⟨by simp [collect_controllers, create_controller_info, is_supported_controller,
    product_in_table, SUPPORTED_PRODUCTS, VENDOR_SONY, PRODUCT_SIXAXIS, PRODUCT_MOVE,
    PRODUCT_DS4, DS4_HID_INTERFACE, MAX_CONTROLLERS, devDs4If0, devDs4If1, devDs4If3], ?_, ?_⟩ <;>
  simp [find_controllers, collect_controllers, create_controller_info,
    is_supported_controller, product_in_table, SUPPORTED_PRODUCTS, VENDOR_SONY,
    PRODUCT_SIXAXIS, PRODUCT_MOVE, PRODUCT_DS4, DS4_HID_INTERFACE, MAX_CONTROLLERS,
    devDs4If0, devDs4If1, devDs4If3, sortOuter, sortInner, lswap, nth]

/-- C5 amended: find_controllers returns a permutation of the
collected records in which every preferred record precedes every
non-preferred one, and the preferred records keep their enumeration
order (their filtered sublist is unchanged); the relative order of the
non-preferred records, however, is not preserved in general. -/
theorem claim5_partition_amended (devs : List DevInfo) (maxc : Nat) :
    List.Perm (find_controllers devs maxc) (collect_controllers devs maxc)
    ∧ (find_controllers devs maxc).filter (fun r => r.is_preferred) =
        (collect_controllers devs maxc).filter (fun r => r.is_preferred)
    ∧ (∀ a b, a < b → b < (find_controllers devs maxc).length →
        (nth (find_controllers devs maxc) b).is_preferred = true →
        (nth (find_controllers devs maxc) a).is_preferred = true) := by
  have hInv0 : InvP (collect_controllers devs maxc) 0 := by
    intro k hk
    omega
  obtain ⟨hL, hP, hF, hI⟩ := sortOuter_spec (collect_controllers devs maxc).length
    (collect_controllers devs maxc) 0 (by omega) hInv0
  refine ⟨hP, hF, ?_⟩
  unfold find_controllers
  intro a b hab hb hbp
  cases hap : (nth (sortOuter (collect_controllers devs maxc) 0) a).is_preferred
  case true => rfl
  case false =>
    have hcontra := hI a (by omega) (by omega) hap b (by omega) hb
    rw [hbp] at hcontra
    exact absurd hcontra (by simp)

/-- Witness for C5 amended: the preferred sublist is unchanged on the
three-record counterexample snapshot. -/
theorem claim5_witness :
    (find_controllers [devDs4If0, devDs4If1, devDs4If3] 10).filter
        (fun r => r.is_preferred) =
      (collect_controllers [devDs4If0, devDs4If1, devDs4If3] 10).filter
        (fun r => r.is_preferred) :=
  (claim5_partition_amended [devDs4If0, devDs4If1, devDs4If3] 10).2.1

/-- Witness for C9: the all-successful environment exits 0. -/
theorem claim9_witness : (main_no_args okEnv).1 = 0 := by
  have hn : (find_controllers okEnv.devices MAX_CONTROLLERS).length ≠ 0 := by
    simp [find_controllers, collect_controllers, create_controller_info,
      is_supported_controller, product_in_table, SUPPORTED_PRODUCTS, VENDOR_SONY,
      PRODUCT_SIXAXIS, PRODUCT_MOVE, PRODUCT_DS4, MAX_CONTROLLERS, okEnv, devSixaxis,
      sortOuter]
  exact ((claim9_no_args_exit okEnv).1 rfl hn (by decide) 1 rfl).1

/-- Witness for C10: a colon-format call with an 18-byte buffer
succeeds. -/
theorem claim10_witness :
    bytes_to_mac_string false false [1, 2, 3, 4, 5, 6] 18 true =
      some (bytes_to_mac_chars [1, 2, 3, 4, 5, 6] true) :=
  (claim10_format_guard false false [1, 2, 3, 4, 5, 6] 18 true).2 rfl rfl (by decide)

end SixaxisPairer
